import Mathlib

/-!
Verification development for the CHIP-8 interpreter engine in `src/cpu.rs`
(with the `Screen` capability from `src/screen.rs`).

Shallow embedding conventions:
* machine integers (`u8`, `u16`) are `Nat` with explicit reductions
  `% 256` / `% 65536` exactly where the Rust code wraps;
* `x << 8 | y` on byte-valued `y` is written `x * 256 + y`,
  `v & 0xFFF` is `v % 4096`, `(v & 0x0F00) >> 8` is `v / 256 % 16`,
  `(v & 0x00F0) >> 4` is `v % 256 / 16`, `v & 1` is `v % 2`,
  `(v & 0x80) >> 7` is `v / 128 % 2`, `v >> 1` is `v / 2`,
  and `v << 1` on a `u8` is `v * 2 % 256`;
* the 4096-byte RAM and the register file are total functions `Nat → Nat`
  (indexing in the model is total; the out-of-bounds indexing of the Rust
  code is analysed separately through the address arithmetic itself);
* `Option<&mut Screen>` is `Option Screen`; the `screen.unwrap()` panic is
  modelled by `step` returning `none`;
* the `rand::thread_rng().gen::<u8>()` byte of opcode `CXNN` is passed to
  `step` as an explicit `rand` argument;
* `Instant` timestamps are `Nat` nanoseconds; `Duration::from_millis(16)`
  is `16000000` nanoseconds.
-/

/-- Reduction of a `Nat` to a 16-bit value (`u16` wrap-around). -/
def u16 (n : Nat) : Nat := n % 65536

/-- Wrapping 16-bit subtraction, modelling `u16::wrapping_sub` (the Rust
source uses plain `-=`, which wraps in release builds). -/
def u16sub (a b : Nat) : Nat := (a + (65536 - b % 65536)) % 65536

/-- Pointwise update of a total function, modelling an array store. -/
def upd (f : Nat → Nat) (i v : Nat) : Nat → Nat :=
  fun j => if j = i then v else f j

/-- Machine state of the CHIP-8 CPU, from `struct Cpu` in `src/cpu.rs`.
The `time` field is the `Instant` reference used by `update_timers`,
in nanoseconds. -/
structure Cpu where
  pc : Nat
  sp : Nat
  index : Nat
  vReg : Nat → Nat
  delayTimer : Nat
  soundTimer : Nat
  ram : Nat → Nat
  time : Nat
  lastKey : Option Nat
  hasDrawn : Bool

/-- Display state, from `struct Screen` in `src/screen.rs` (the SDL canvas
and event pump are presentation-only and not part of the data model). -/
structure Screen where
  pixels : Nat → Nat
  shutdownPixels : Nat → Nat
  keypad : Nat → Bool

/-- `Screen::clear`: zero every pixel. -/
def Screen.clear (s : Screen) : Screen :=
  { s with pixels := fun _ => 0 }

/-- `Screen::draw_pixel`: XOR `bit` into pixel `(x, y)` and return the
previous pixel value. -/
def Screen.drawPixel (s : Screen) (x y bit : Nat) : Nat × Screen :=
  let i := y * 64 + x
  let prev := s.pixels i
  let s1 :=
    if prev = 1 ∧ bit = 1 then
      { s with shutdownPixels := upd s.shutdownPixels i 255 }
    else s
  (prev, { s1 with pixels := upd s1.pixels i (prev ^^^ bit) })

/-- `Screen::is_key_pressed`. -/
def Screen.isKeyPressed (s : Screen) (key : Nat) : Bool := s.keypad key

/-- `Screen::get_key_pressed`: first pressed key in 0..16, if any. -/
def Screen.getKeyPressed (s : Screen) : Option Nat :=
  (List.range 16).find? fun i => s.keypad i

/-- Bit `j` (from the left, j = 0 is the most significant bit) of a sprite
row byte: `(byte >> (7 - j)) & 0x01`. -/
def bitAt (byte j : Nat) : Nat := byte / 2 ^ (7 - j) % 2

/-- Inner loop of the `DXYN` draw instruction (`for j in 0..8`), drawing
row `y` of the sprite byte `byte` from column offset `j` on; breaks at the
first column that would leave the screen (`x + j >= 64`).  Returns the
updated screen and collision flag accumulator. -/
def drawCols (s : Screen) (vf x y byte j : Nat) : Screen × Nat :=
  if j < 8 then
    if 64 ≤ x + j then (s, vf)
    else
      drawCols (s.drawPixel (x + j) y (bitAt byte j)).2
        (if (s.drawPixel (x + j) y (bitAt byte j)).1 = 1 ∧ bitAt byte j = 1
          then 1 else vf)
        x y byte (j + 1)
  else (s, vf)
termination_by 8 - j

/-- Outer loop of the `DXYN` draw instruction (`for i in 0..n`); breaks at
the first row that would leave the screen (`y + i >= 32`).  Row `i` uses
the sprite byte `ram[(index + i) as u16]`. -/
def drawRows (s : Screen) (vf : Nat) (ram : Nat → Nat) (index x y n i : Nat) :
    Screen × Nat :=
  if i < n then
    if 32 ≤ y + i then (s, vf)
    else
      drawRows (drawCols s vf x (y + i) (ram (u16 (index + i))) 0).1
        (drawCols s vf x (y + i) (ram (u16 (index + i))) 0).2
        ram index x y n (i + 1)
  else (s, vf)
termination_by n - i

/-- Opcode `00EE` (return from subroutine): pop high byte then low byte of
the return address, decrementing `sp` twice. -/
def execRet (c : Cpu) : Cpu :=
  let sp1 := u16sub c.sp 1
  let pcHi := c.ram sp1
  let sp2 := u16sub sp1 1
  { c with sp := sp2, pc := pcHi * 256 + c.ram sp2 }

/-- Opcode `2NNN` (call subroutine): push the low byte then the high byte
of the (post-fetch) program counter, incrementing `sp` twice, then jump. -/
def execCall (c : Cpu) (op : Nat) : Cpu :=
  let ram1 := upd c.ram c.sp (c.pc % 256)
  let sp1 := u16 (c.sp + 1)
  let ram2 := upd ram1 sp1 (c.pc / 256)
  { c with ram := ram2, sp := u16 (sp1 + 1), pc := op % 4096 }

/-- Opcodes `8XY0`..`8XYE` (register ALU family).  The flag write to
register 15 happens after the destination write, as in the source. -/
def execALU (c : Cpu) (op : Nat) : Cpu :=
  let x := op / 256 % 16
  let y := op % 256 / 16
  if op % 16 = 0x0 then
    { c with vReg := upd c.vReg x (c.vReg y) }
  else if op % 16 = 0x1 then
    { c with vReg := upd (upd c.vReg x (c.vReg x ||| c.vReg y)) 15 0 }
  else if op % 16 = 0x2 then
    { c with vReg := upd (upd c.vReg x (c.vReg x &&& c.vReg y)) 15 0 }
  else if op % 16 = 0x3 then
    { c with vReg := upd (upd c.vReg x (c.vReg x ^^^ c.vReg y)) 15 0 }
  else if op % 16 = 0x4 then
    let flag := if 255 < c.vReg x + c.vReg y then 1 else 0
    { c with vReg := upd (upd c.vReg x ((c.vReg x + c.vReg y) % 256)) 15 flag }
  else if op % 16 = 0x5 then
    let flag := if c.vReg y ≤ c.vReg x then 1 else 0
    { c with vReg := upd (upd c.vReg x ((c.vReg x + 256 - c.vReg y) % 256)) 15 flag }
  else if op % 16 = 0x6 then
    { c with vReg := upd (upd c.vReg x (c.vReg y / 2)) 15 (c.vReg y % 2) }
  else if op % 16 = 0x7 then
    let flag := if c.vReg x ≤ c.vReg y then 1 else 0
    { c with vReg := upd (upd c.vReg x ((c.vReg y + 256 - c.vReg x) % 256)) 15 flag }
  else if op % 16 = 0xE then
    { c with vReg := upd (upd c.vReg x (c.vReg y * 2 % 256)) 15 (c.vReg y / 128 % 2) }
  else c

/-- Opcode `DXYN` (draw sprite): `n` rows starting at `index`, drawn at
`(Vx % 64, Vy % 32)`; the collision flag is written to register 15. -/
def execDraw (c : Cpu) (op : Nat) (s : Screen) : Cpu × Screen :=
  let x := c.vReg (op / 256 % 16) % 64
  let y := c.vReg (op % 256 / 16) % 32
  let n := op % 16
  let r := drawRows s 0 c.ram c.index x y n 0
  ({ c with hasDrawn := true, vReg := upd c.vReg 15 r.2 }, r.1)

/-- Opcodes `EX9E` / `EXA1` (skip on key state). -/
def execKey (c : Cpu) (op : Nat) (s : Screen) : Cpu :=
  let x := op / 256 % 16
  if op % 256 = 0x9E then
    if s.isKeyPressed (c.vReg x) then { c with pc := u16 (c.pc + 2) } else c
  else if op % 256 = 0xA1 then
    if s.isKeyPressed (c.vReg x) then c else { c with pc := u16 (c.pc + 2) }
  else c

/-- Loop body of `FX55` (`for i in 0..x+1`): store register `i` at
`ram[index]` and advance `index`. -/
def storeLoop (c : Cpu) (x i : Nat) : Cpu :=
  if i < x + 1 then
    storeLoop
      { c with ram := upd c.ram c.index (c.vReg i), index := u16 (c.index + 1) }
      x (i + 1)
  else c
termination_by x + 1 - i

/-- Loop body of `FX65` (`for i in 0..x+1`): load register `i` from
`ram[index]` and advance `index`. -/
def loadLoop (c : Cpu) (x i : Nat) : Cpu :=
  if i < x + 1 then
    loadLoop
      { c with vReg := upd c.vReg i (c.ram c.index), index := u16 (c.index + 1) }
      x (i + 1)
  else c
termination_by x + 1 - i

/-- The `FXNN` instruction family.  `FX0A` unwraps the screen (a missing
screen is the `none` result) and implements the press-then-release wait
through `lastKey` and program-counter rewinds. -/
def execF (c : Cpu) (op : Nat) (screen : Option Screen) :
    Option (Cpu × Option Screen) :=
  let x := op / 256 % 16
  if op % 256 = 0x07 then
    some ({ c with vReg := upd c.vReg x c.delayTimer }, screen)
  else if op % 256 = 0x15 then
    some ({ c with delayTimer := c.vReg x }, screen)
  else if op % 256 = 0x18 then
    some ({ c with soundTimer := c.vReg x }, screen)
  else if op % 256 = 0x1E then
    some ({ c with index := u16 (c.index + c.vReg x) }, screen)
  else if op % 256 = 0x29 then
    some ({ c with index := 0x50 + c.vReg x * 5 % 256 }, screen)
  else if op % 256 = 0x33 then
    some ({ c with ram :=
      (upd (upd (upd c.ram c.index (c.vReg x / 100))
        (u16 (c.index + 1)) (c.vReg x / 10 % 10))
        (u16 (c.index + 2)) (c.vReg x % 10)) }, screen)
  else if op % 256 = 0x55 then
    some (storeLoop c x 0, screen)
  else if op % 256 = 0x65 then
    some (loadLoop c x 0, screen)
  else if op % 256 = 0x0A then
    match screen with
    | none => none
    | some s =>
      match c.lastKey with
      | some key =>
        if s.isKeyPressed key then
          some ({ c with pc := u16sub c.pc 2 }, some s)
        else
          some ({ c with vReg := upd c.vReg x key, lastKey := none }, some s)
      | none =>
        some ({ c with pc := u16sub c.pc 2, lastKey := s.getKeyPressed }, some s)
  else some (c, screen)

/-- Dispatch on the high nibble of the fetched opcode, then on the family
specific sub-fields, following the `match` structure of `Cpu::step`.
The catch-all arms correspond to the `warn!`-only arms of the source:
they leave the state unchanged. -/
def exec (c : Cpu) (op : Nat) (screen : Option Screen) (rand : Nat) :
    Option (Cpu × Option Screen) :=
  if op / 4096 = 0x0 then
    if op % 256 = 0xE0 then
      match screen with
      | none => none
      | some s => some ({ c with hasDrawn := true }, some s.clear)
    else if op % 256 = 0xEE then some (execRet c, screen)
    else some (c, screen)
  else if op / 4096 = 0x1 then
    some ({ c with pc := op % 4096 }, screen)
  else if op / 4096 = 0x2 then
    some (execCall c op, screen)
  else if op / 4096 = 0x3 then
    some (if c.vReg (op / 256 % 16) = op % 256 then
      { c with pc := u16 (c.pc + 2) } else c, screen)
  else if op / 4096 = 0x4 then
    some (if c.vReg (op / 256 % 16) ≠ op % 256 then
      { c with pc := u16 (c.pc + 2) } else c, screen)
  else if op / 4096 = 0x5 then
    some (if c.vReg (op / 256 % 16) = c.vReg (op % 256 / 16) then
      { c with pc := u16 (c.pc + 2) } else c, screen)
  else if op / 4096 = 0x6 then
    some ({ c with vReg := upd c.vReg (op / 256 % 16) (op % 256) }, screen)
  else if op / 4096 = 0x7 then
    some ({ c with vReg := (upd c.vReg (op / 256 % 16)
      ((c.vReg (op / 256 % 16) + op % 256) % 256)) }, screen)
  else if op / 4096 = 0x8 then
    some (execALU c op, screen)
  else if op / 4096 = 0x9 then
    some (if c.vReg (op / 256 % 16) ≠ c.vReg (op % 256 / 16) then
      { c with pc := u16 (c.pc + 2) } else c, screen)
  else if op / 4096 = 0xA then
    some ({ c with index := op % 4096 }, screen)
  else if op / 4096 = 0xB then
    some ({ c with pc := op % 4096 + c.vReg 0 }, screen)
  else if op / 4096 = 0xC then
    some ({ c with vReg := (upd c.vReg (op / 256 % 16)
      ((rand % 256) &&& (op % 256))) }, screen)
  else if op / 4096 = 0xD then
    match screen with
    | none => none
    | some s =>
      let r := execDraw c op s
      some (r.1, some r.2)
  else if op / 4096 = 0xE then
    match screen with
    | none => none
    | some s => some (execKey c op s, some s)
  else if op / 4096 = 0xF then
    execF c op screen
  else some (c, screen)

/-- Second byte address read by `Cpu::fetch`: `(pc + 1)` as `u16`. -/
def fetchAddr2 (c : Cpu) : Nat := u16 (c.pc + 1)

/-- `Cpu::fetch` without the program-counter increment: big-endian 16-bit
opcode from two consecutive RAM bytes. -/
def fetchOpcode (c : Cpu) : Nat :=
  c.ram c.pc * 256 + c.ram (fetchAddr2 c)

/-- `Cpu::step`: reset the dirty flag, fetch (advancing the program
counter by 2), then dispatch.  Returns `none` when the Rust code would
panic on `screen.unwrap()`. -/
def step (c : Cpu) (screen : Option Screen) (rand : Nat) :
    Option (Cpu × Option Screen) :=
  let op := fetchOpcode c
  exec { c with hasDrawn := false, pc := u16 (c.pc + 2) } op screen rand

/-- `Cpu::update_timers` with the wall clock passed explicitly: `now` and
`c.time` are nanosecond timestamps, `Duration::from_millis(16)` is
16000000 ns, and `now.duration_since(c.time)` is saturating `Nat`
subtraction. -/
def updateTimers (c : Cpu) (now : Nat) : Cpu :=
  if 16000000 ≤ now - c.time then
    { c with
      delayTimer := if 0 < c.delayTimer then c.delayTimer - 1 else c.delayTimer,
      soundTimer := if 0 < c.soundTimer then c.soundTimer - 1 else c.soundTimer,
      time := now }
  else c

/-- `Cpu::new`: all state zeroed, program counter at the load address. -/
def initCpu : Cpu :=
  { pc := 0x200, sp := 0, index := 0, vReg := fun _ => 0,
    delayTimer := 0, soundTimer := 0, ram := fun _ => 0,
    time := 0, lastKey := none, hasDrawn := false }

/-- Validity of a RAM index against `RAM_SIZE` (4096). -/
def ramInBounds (a : Nat) : Prop := a < 4096

/-- Combined value of the three bitwise ALU instructions, selected by the
low opcode nibble `k`: OR for 1, AND for 2, XOR for 3. -/
def combOp (k a b : Nat) : Nat :=
  if k = 1 then a ||| b else if k = 2 then a &&& b else a ^^^ b

/-- RAM of the C1 counterexample: opcode `8F01` (`VF |= V0`) at `0x200`. -/
def ramC1 : Nat → Nat :=
  fun a => if a = 0x200 then 0x8F else if a = 0x201 then 0x01 else 0

/-- Registers of the C1 counterexample: `V0 = 1`, all others zero. -/
def vRegC1 : Nat → Nat := fun i => if i = 0 then 1 else 0

/-- CPU state of the C1 counterexample. -/
def cpuC1 : Cpu := { initCpu with ram := ramC1, vReg := vRegC1 }

/-- CPU state of the C1 witness: opcode `8011` (`V0 |= V1`) at `0x200`,
`V0 = 5`, `V1 = 3`. -/
def cpuW1 : Cpu :=
  { initCpu with
    ram := fun a => if a = 0x200 then 0x80 else if a = 0x201 then 0x11 else 0,
    vReg := fun i => if i = 0 then 5 else if i = 1 then 3 else 0 }

/-- RAM of the C2 counterexample: opcode `8F06` (`VF = V0 >> 1`) at
`0x200`. -/
def ramC2 : Nat → Nat :=
  fun a => if a = 0x200 then 0x8F else if a = 0x201 then 0x06 else 0

/-- Registers of the C2 counterexample: `V0 = 2`, all others zero. -/
def vRegC2 : Nat → Nat := fun i => if i = 0 then 2 else 0

/-- CPU state of the C2 counterexample. -/
def cpuC2 : Cpu := { initCpu with ram := ramC2, vReg := vRegC2 }

/-- CPU state of the C2 witness: opcode `8016` (`V0 = V1 >> 1`) at
`0x200`, `V1 = 3`, mirroring the `set_vx_vy_shr` unit test. -/
def cpuW2 : Cpu :=
  { initCpu with
    ram := fun a => if a = 0x200 then 0x80 else if a = 0x201 then 0x16 else 0,
    vReg := fun i => if i = 1 then 3 else 0 }

/-- CPU state of the C3 witness: the `ret_sub` unit-test ROM
`[0x22, 0x02, 0x00, 0xEE]` (call `0x202`, then return) at `0x200`. -/
def cpuW3 : Cpu :=
  { initCpu with
    ram := fun a =>
      if a = 0x200 then 0x22 else if a = 0x201 then 0x02
      else if a = 0x203 then 0xEE else 0 }

/-- CPU state of the C4 witness: opcode `F30A` at `0x200`, with key 5
recorded as awaited. -/
def cpuW4 : Cpu :=
  { initCpu with
    ram := fun a => if a = 0x200 then 0xF3 else if a = 0x201 then 0x0A else 0,
    lastKey := some 5 }

/-- Screen state of the C4 witness: nothing pressed, blank screen. -/
def screenW4 : Screen :=
  { pixels := fun _ => 0, shutdownPixels := fun _ => 0, keypad := fun _ => false }

/-- CPU state of the C5 counterexample and witness: both timers at 1,
time reference at 0 ns. -/
def cpuC5 : Cpu := { initCpu with delayTimer := 1, soundTimer := 1 }

/-- CPU state of the C7 witness: opcode `F155` at `0x200`, `index = 0x300`,
`V0 = 7`, `V1 = 9`, mirroring a store of registers 0..1. -/
def cpuW7 : Cpu :=
  { initCpu with
    ram := fun a => if a = 0x200 then 0xF1 else if a = 0x201 then 0x55 else 0,
    index := 0x300,
    vReg := fun i => if i = 0 then 7 else if i = 1 then 9 else 0 }

/-- Opcode patterns that fall into a `warn!`-only arm of `Cpu::step`:
family 0 with a low byte other than `E0`/`EE`, family 8 with a low nibble
other than 0-7/E, family E with a low byte other than `9E`/`A1`, family F
with an unlisted low byte, and (for the model's totality) values beyond
16 bits, which correspond to the unreachable final catch-all arm. -/
def unknownOpcode (op : Nat) : Prop :=
  (op / 4096 = 0x0 ∧ op % 256 ≠ 0xE0 ∧ op % 256 ≠ 0xEE) ∨
  (op / 4096 = 0x8 ∧ op % 16 ≠ 0x0 ∧ op % 16 ≠ 0x1 ∧ op % 16 ≠ 0x2 ∧
    op % 16 ≠ 0x3 ∧ op % 16 ≠ 0x4 ∧ op % 16 ≠ 0x5 ∧ op % 16 ≠ 0x6 ∧
    op % 16 ≠ 0x7 ∧ op % 16 ≠ 0xE) ∨
  (op / 4096 = 0xE ∧ op % 256 ≠ 0x9E ∧ op % 256 ≠ 0xA1) ∨
  (op / 4096 = 0xF ∧ op % 256 ≠ 0x07 ∧ op % 256 ≠ 0x15 ∧ op % 256 ≠ 0x18 ∧
    op % 256 ≠ 0x1E ∧ op % 256 ≠ 0x29 ∧ op % 256 ≠ 0x33 ∧ op % 256 ≠ 0x55 ∧
    op % 256 ≠ 0x65 ∧ op % 256 ≠ 0x0A) ∨
  16 ≤ op / 4096

/-- CPU state of the C8 witness: unimplemented opcode `8008` at `0x200`. -/
def cpuW8 : Cpu :=
  { initCpu with
    ram := fun a => if a = 0x200 then 0x80 else if a = 0x201 then 0x08 else 0 }

/-- Opcodes on which `Cpu::step` calls `screen.unwrap()`, per the code:
any `0XE0` clear, any `DXYN` draw, the whole `EXnn` family (the unwrap
happens before the low byte is decoded), and `FX0A`. -/
def needsScreen (op : Nat) : Prop :=
  (op / 4096 = 0x0 ∧ op % 256 = 0xE0) ∨ op / 4096 = 0xD ∨ op / 4096 = 0xE ∨
  (op / 4096 = 0xF ∧ op % 256 = 0x0A)

/-- Opcodes that claim C9 lists as panicking without a Display: clear
screen `00E0`, draw `DXYN`, skip-if-key `EX9E`/`EXA1`, and key wait
`FX0A`. -/
def claimNeedsScreen (op : Nat) : Prop :=
  op = 0x00E0 ∨ op / 4096 = 0xD ∨
  (op / 4096 = 0xE ∧ (op % 256 = 0x9E ∨ op % 256 = 0xA1)) ∨
  (op / 4096 = 0xF ∧ op % 256 = 0x0A)

/-- CPU state of the C9 counterexample: opcode `E000` at `0x200`. -/
def cpuC9 : Cpu :=
  { initCpu with
    ram := fun a => if a = 0x200 then 0xE0 else 0 }

/-- CPU state for the C10 return-underflow path: opcode `00EE` at `0x200`
with `sp = 0`. -/
def cpuC10ret : Cpu :=
  { initCpu with
    ram := fun a => if a = 0x201 then 0xEE else 0 }

/-- CPU state for the C10 jump-with-offset path: opcode `BFFF` at `0x200`
with `V0 = 0xFF`. -/
def cpuC10jmp : Cpu :=
  { initCpu with
    ram := fun a => if a = 0x200 then 0xBF else if a = 0x201 then 0xFF else 0,
    vReg := fun i => if i = 0 then 0xFF else 0 }

/-- CPU state for the C10 fetch path: program counter at the last RAM
byte, 4095. -/
def cpuC10fetch : Cpu := { initCpu with pc := 4095 }

/-- XOR contribution of one sprite row (byte `byte` at row `y`, columns
`x + j .. x + 7`, clipped at column 64) to the pixel at index `p`:
the mask that `drawCols` XORs into the pixel buffer. -/
def colMask (x y byte j p : Nat) : Nat :=
  if j < 8 then
    if 64 ≤ x + j then 0
    else (if p = y * 64 + (x + j) then bitAt byte j else 0) ^^^
      colMask x y byte (j + 1) p
  else 0
termination_by 8 - j

/-- XOR contribution of the whole sprite (rows `i .. n - 1`, clipped at
row 32) to the pixel at index `p`: the mask that `drawRows` XORs into the
pixel buffer. -/
def rowMask (ram : Nat → Nat) (index x y n i p : Nat) : Nat :=
  if i < n then
    if 32 ≤ y + i then 0
    else colMask x (y + i) (ram (u16 (index + i))) 0 p ^^^
      rowMask ram index x y n (i + 1) p
  else 0
termination_by n - i

/-- Collision predicate of one sprite row against the pixel buffer `pix`:
true when some drawn bit lands on an already-set pixel. -/
def colHit (pix : Nat → Nat) (x y byte j : Nat) : Bool :=
  if j < 8 then
    if 64 ≤ x + j then false
    else (pix (y * 64 + (x + j)) == 1 && bitAt byte j == 1) ||
      colHit pix x y byte (j + 1)
  else false
termination_by 8 - j

/-- Collision predicate of the whole sprite against the pixel buffer
`pix`. -/
def rowHit (pix ram : Nat → Nat) (index x y n i : Nat) : Bool :=
  if i < n then
    if 32 ≤ y + i then false
    else colHit pix x (y + i) (ram (u16 (index + i))) 0 ||
      rowHit pix ram index x y n (i + 1)
  else false
termination_by n - i

/-- CPU state of the C6 witness: two consecutive `D011` draws at `0x200`,
sprite byte `0x80` at `index = 0x300`, all registers zero. -/
def cpuW6 : Cpu :=
  { initCpu with
    index := 0x300,
    ram := fun a =>
      if a = 0x200 then 0xD0 else if a = 0x201 then 0x11
      else if a = 0x202 then 0xD0 else if a = 0x203 then 0x11
      else if a = 0x300 then 0x80 else 0 }

lemma upd_self (f : Nat → Nat) (i v : Nat) : upd f i v i = v := by
  simp [upd]

lemma upd_ne (f : Nat → Nat) (i v j : Nat) (h : j ≠ i) : upd f i v j = f j := by
  simp [upd, h]

/-- C1 (counterexample): with opcode `8F01` (x = 15, y = 0) and `V0 = 1`,
the combined value is `VF | V0 = 1`, but after the step register 15 (the
destination register x) holds 0, not the combined value: the claim's
universal quantification over x fails at x = 15, where the unconditional
flag zeroing overwrites the just-stored result. -/
theorem bitwiseClaimFailsAtVF :
    (step cpuC1 none 0).map (fun p => p.1.vReg 15) = some 0 ∧
    cpuC1.vReg 15 ||| cpuC1.vReg 0 = 1 := by
  constructor <;> rfl

/-- C1 (amended): executing `8XY1`/`8XY2`/`8XY3` always leaves register 15
equal to 0, and stores the combined value in register x whenever x ≠ 15
(for x = 15 the flag zeroing overwrites the combined value). -/
theorem bitwiseOpsZeroFlag (c : Cpu) (x y k rand : Nat)
    (hx : x < 16) (hy : y < 16) (hk : k = 1 ∨ k = 2 ∨ k = 3)
    (hb0 : c.ram c.pc = 0x80 + x)
    (hb1 : c.ram (fetchAddr2 c) = 16 * y + k) :
    ∃ c', step c none rand = some (c', none) ∧
      c'.vReg 15 = 0 ∧
      (x ≠ 15 → c'.vReg x = combOp k (c.vReg x) (c.vReg y)) := by
  have hop : fetchOpcode c = (0x80 + x) * 256 + (16 * y + k) := by
    unfold fetchOpcode; rw [hb0, hb1]
  have hk3 : k < 16 := by omega
  have h1 : fetchOpcode c / 4096 = 8 := by rw [hop]; omega
  have h2 : fetchOpcode c / 256 % 16 = x := by rw [hop]; omega
  have h3 : fetchOpcode c % 256 / 16 = y := by rw [hop]; omega
  have h4 : fetchOpcode c % 16 = k := by rw [hop]; omega
  have hstep : step c none rand =
      some (execALU { c with hasDrawn := false, pc := u16 (c.pc + 2) }
        (fetchOpcode c), none) := by
    simp [step, exec, h1]
  refine ⟨_, hstep, ?_, ?_⟩
  · rcases hk with rfl | rfl | rfl <;>
      simp [execALU, h2, h3, h4, upd_self]
  · intro hx15
    rcases hk with rfl | rfl | rfl <;>
      simp [execALU, h2, h3, h4, combOp, upd_self, upd_ne _ _ _ _ hx15]

/-- C1 (witness): the amended theorem applied to opcode `8011` with
`V0 = 5`, `V1 = 3`. -/
theorem bitwiseOpsZeroFlagWitness :
    ∃ c', step cpuW1 none 0 = some (c', none) ∧
      c'.vReg 15 = 0 ∧
      (0 ≠ 15 → c'.vReg 0 = combOp 1 (cpuW1.vReg 0) (cpuW1.vReg 1)) :=
  bitwiseOpsZeroFlag cpuW1 0 1 1 0 (by norm_num) (by norm_num)
    (Or.inl rfl) rfl rfl

/-- C2 (counterexample): with opcode `8F06` (x = 15, y = 0) and `V0 = 2`,
the shifted value `V0 >> 1 = 1` should land in register x (= 15), but the
flag write (low bit of `V0`, that is 0) happens afterwards and overwrites
it, so register 15 ends at 0: the claim fails at x = 15. -/
theorem shiftClaimFailsAtVF :
    (step cpuC2 none 0).map (fun p => p.1.vReg 15) = some 0 ∧
    cpuC2.vReg 0 / 2 = 1 := by
  constructor <;> rfl

/-- C2 (amended): `8XY6` sets register 15 to the low bit of `Vy` and, when
x ≠ 15, register x to `Vy >> 1`; `8XYE` sets register 15 to the high bit
of `Vy` and, when x ≠ 15, register x to `Vy << 1` truncated to 8 bits.
Both shifts read the second operand register y as the source (for x = 15
the flag write, which happens last, overwrites the shifted value). -/
theorem shiftsReadSourceRegister (c : Cpu) (x y k rand : Nat)
    (hx : x < 16) (hy : y < 16) (hk : k = 6 ∨ k = 14)
    (hb0 : c.ram c.pc = 0x80 + x)
    (hb1 : c.ram (fetchAddr2 c) = 16 * y + k) :
    ∃ c', step c none rand = some (c', none) ∧
      c'.vReg 15 = (if k = 6 then c.vReg y % 2 else c.vReg y / 128 % 2) ∧
      (x ≠ 15 →
        c'.vReg x = (if k = 6 then c.vReg y / 2 else c.vReg y * 2 % 256)) := by
  have hop : fetchOpcode c = (0x80 + x) * 256 + (16 * y + k) := by
    unfold fetchOpcode; rw [hb0, hb1]
  have hk3 : k < 16 := by omega
  have h1 : fetchOpcode c / 4096 = 8 := by rw [hop]; omega
  have h2 : fetchOpcode c / 256 % 16 = x := by rw [hop]; omega
  have h3 : fetchOpcode c % 256 / 16 = y := by rw [hop]; omega
  have h4 : fetchOpcode c % 16 = k := by rw [hop]; omega
  have hstep : step c none rand =
      some (execALU { c with hasDrawn := false, pc := u16 (c.pc + 2) }
        (fetchOpcode c), none) := by
    simp [step, exec, h1]
  refine ⟨_, hstep, ?_, ?_⟩
  · rcases hk with rfl | rfl <;>
      simp [execALU, h2, h3, h4, upd_self]
  · intro hx15
    rcases hk with rfl | rfl <;>
      simp [execALU, h2, h3, h4, upd_self, upd_ne _ _ _ _ hx15]

/-- C2 (witness): the amended theorem applied to opcode `8016` with
`V1 = 3`: destination 1, flag 1. -/
theorem shiftsReadSourceRegisterWitness :
    ∃ c', step cpuW2 none 0 = some (c', none) ∧
      c'.vReg 15 = (if 6 = 6 then cpuW2.vReg 1 % 2 else cpuW2.vReg 1 / 128 % 2) ∧
      (0 ≠ 15 →
        c'.vReg 0 = (if 6 = 6 then cpuW2.vReg 1 / 2 else cpuW2.vReg 1 * 2 % 256)) :=
  shiftsReadSourceRegister cpuW2 0 1 6 0 (by norm_num) (by norm_num)
    (Or.inl rfl) rfl rfl

lemma exec_ret (c : Cpu) (screen : Option Screen) (rand : Nat) :
    exec c 238 screen rand = some (execRet c, screen) := by
  norm_num [exec]

/-- C3: `2NNN` pushes the low then high byte of the post-fetch program
counter at `sp` and `sp+1`, increments `sp` by 2, and jumps to `NNN`;
a `00EE` fetched at `NNN` afterwards restores `sp` and sets the program
counter to the address immediately after the call.  The hypotheses state
that a return instruction actually sits at `NNN` (and that the two stack
slots do not overwrite it). -/
theorem callThenReturn (c : Cpu) (nnn rand1 rand2 : Nat)
    (hsp : c.sp < 65536) (hnnn : nnn < 4096)
    (hb0 : c.ram c.pc = 0x20 + nnn / 256)
    (hb1 : c.ram (fetchAddr2 c) = nnn % 256)
    (hr0 : c.ram nnn = 0x00)
    (hr1 : c.ram (u16 (nnn + 1)) = 0xEE)
    (hd0 : c.sp ≠ nnn) (hd1 : c.sp ≠ u16 (nnn + 1))
    (hd2 : u16 (c.sp + 1) ≠ nnn) (hd3 : u16 (c.sp + 1) ≠ u16 (nnn + 1)) :
    ∃ c1 c2,
      step c none rand1 = some (c1, none) ∧
      c1.ram c.sp = u16 (c.pc + 2) % 256 ∧
      c1.ram (u16 (c.sp + 1)) = u16 (c.pc + 2) / 256 ∧
      c1.sp = u16 (c.sp + 2) ∧
      c1.pc = nnn ∧
      step c1 none rand2 = some (c2, none) ∧
      c2.sp = c.sp ∧
      c2.pc = u16 (c.pc + 2) := by
  have hop : fetchOpcode c = (0x20 + nnn / 256) * 256 + nnn % 256 := by
    unfold fetchOpcode; rw [hb0, hb1]
  have h1 : fetchOpcode c / 4096 = 2 := by rw [hop]; omega
  have hnnn4 : fetchOpcode c % 4096 = nnn := by rw [hop]; omega
  have hsp2 : u16 (u16 (c.sp + 1) + 1) = u16 (c.sp + 2) := by
    unfold u16; omega
  have hstep1 : step c none rand1 =
      some ({ c with
        hasDrawn := false
        ram := (upd (upd c.ram c.sp (u16 (c.pc + 2) % 256))
          (u16 (c.sp + 1)) (u16 (c.pc + 2) / 256))
        sp := u16 (c.sp + 2)
        pc := nnn }, none) := by
    simp [step, exec, execCall, h1, hnnn4, hsp2]
  have hfetch2 : fetchOpcode
      { c with
        hasDrawn := false
        ram := (upd (upd c.ram c.sp (u16 (c.pc + 2) % 256))
          (u16 (c.sp + 1)) (u16 (c.pc + 2) / 256))
        sp := u16 (c.sp + 2)
        pc := nnn } = 238 := by
    simp only [fetchOpcode, fetchAddr2]
    rw [upd_ne _ _ _ _ hd2.symm, upd_ne _ _ _ _ hd0.symm, hr0,
      upd_ne _ _ _ _ hd3.symm, upd_ne _ _ _ _ hd1.symm, hr1]
  have e1 : u16sub (u16 (c.sp + 2)) 1 = u16 (c.sp + 1) := by
    unfold u16 u16sub; omega
  have e2 : u16sub (u16 (c.sp + 1)) 1 = c.sp := by
    unfold u16 u16sub; omega
  have e3 : c.sp ≠ u16 (c.sp + 1) := by
    unfold u16; omega
  have e5 : u16 (c.pc + 2) / 256 * 256 + u16 (c.pc + 2) % 256 = u16 (c.pc + 2) := by
    unfold u16; omega
  have hstep2 : step
      { c with
        hasDrawn := false
        ram := (upd (upd c.ram c.sp (u16 (c.pc + 2) % 256))
          (u16 (c.sp + 1)) (u16 (c.pc + 2) / 256))
        sp := u16 (c.sp + 2)
        pc := nnn } none rand2 =
      some ({ c with
        hasDrawn := false
        ram := (upd (upd c.ram c.sp (u16 (c.pc + 2) % 256))
          (u16 (c.sp + 1)) (u16 (c.pc + 2) / 256))
        sp := c.sp
        pc := u16 (c.pc + 2) }, none) := by
    simp only [step]
    rw [hfetch2, exec_ret]
    simp only [execRet]
    rw [e1, e2, upd_self, upd_ne _ _ _ _ e3, upd_self, e5]
  refine ⟨_, _, hstep1, ?_, ?_, ?_, ?_, hstep2, ?_, ?_⟩
  · dsimp only
    rw [upd_ne _ _ _ _ e3, upd_self]
  · dsimp only
    exact upd_self _ _ _
  · rfl
  · rfl
  · rfl
  · rfl

/-- C3 (witness): the call/return theorem applied to the `ret_sub`
unit-test ROM: `pc` ends at `0x202`, `sp` back at 0. -/
theorem callThenReturnWitness :
    ∃ c1 c2,
      step cpuW3 none 0 = some (c1, none) ∧
      c1.ram cpuW3.sp = u16 (cpuW3.pc + 2) % 256 ∧
      c1.ram (u16 (cpuW3.sp + 1)) = u16 (cpuW3.pc + 2) / 256 ∧
      c1.sp = u16 (cpuW3.sp + 2) ∧
      c1.pc = 0x202 ∧
      step c1 none 0 = some (c2, none) ∧
      c2.sp = cpuW3.sp ∧
      c2.pc = u16 (cpuW3.pc + 2) :=
  callThenReturn cpuW3 0x202 0 0 (by norm_num [cpuW3, initCpu])
    (by norm_num) rfl rfl rfl rfl
    (by decide) (by decide) (by decide) (by decide)

/-- C4: the `FX0A` blocking key wait as a press-then-release state machine
across `step` calls.  With no awaited key, the program counter is rewound
by 2 (net: unchanged across the step) and any currently pressed key is
recorded; with an awaited key still pressed, only the rewind happens; once
the awaited key is released, the key value lands in register x, the
awaited-key state is cleared, and the program counter advances past the
instruction. -/
theorem keyWaitStateMachine (c : Cpu) (s : Screen) (x rand : Nat)
    (hx : x < 16) (hpc : c.pc < 65536)
    (hb0 : c.ram c.pc = 0xF0 + x)
    (hb1 : c.ram (fetchAddr2 c) = 0x0A) :
    (c.lastKey = none →
      step c (some s) rand =
        some ({ c with hasDrawn := false, lastKey := s.getKeyPressed },
          some s)) ∧
    (∀ k, c.lastKey = some k → s.isKeyPressed k = true →
      step c (some s) rand = some ({ c with hasDrawn := false }, some s)) ∧
    (∀ k, c.lastKey = some k → s.isKeyPressed k = false →
      step c (some s) rand =
        some ({ c with
          vReg := upd c.vReg x k
          lastKey := none
          hasDrawn := false
          pc := u16 (c.pc + 2) }, some s)) := by
  have hop : fetchOpcode c = (0xF0 + x) * 256 + 0x0A := by
    unfold fetchOpcode; rw [hb0, hb1]
  have h1 : fetchOpcode c / 4096 = 15 := by rw [hop]; omega
  have h2 : fetchOpcode c % 256 = 0x0A := by rw [hop]; omega
  have h3 : fetchOpcode c / 256 % 16 = x := by rw [hop]; omega
  have hpc2 : u16sub (u16 (c.pc + 2)) 2 = c.pc := by
    unfold u16 u16sub; omega
  refine ⟨?_, ?_, ?_⟩
  · intro hnone
    simp [step, exec, execF, h1, h2, h3, hnone, hpc2]
  · intro k hk hpress
    simp [step, exec, execF, h1, h2, h3, hk, hpress, hpc2]
  · intro k hk hrel
    simp [step, exec, execF, h1, h2, h3, hk, hrel]

/-- C4 (witness): the key-wait theorem applied with awaited key 5 now
released: the step stores 5 in register 3, clears the wait state and lets
the program counter advance. -/
theorem keyWaitStateMachineWitness :
    (cpuW4.lastKey = none →
      step cpuW4 (some screenW4) 0 =
        some ({ cpuW4 with hasDrawn := false, lastKey := screenW4.getKeyPressed },
          some screenW4)) ∧
    (∀ k, cpuW4.lastKey = some k → screenW4.isKeyPressed k = true →
      step cpuW4 (some screenW4) 0 =
        some ({ cpuW4 with hasDrawn := false }, some screenW4)) ∧
    (∀ k, cpuW4.lastKey = some k → screenW4.isKeyPressed k = false →
      step cpuW4 (some screenW4) 0 =
        some ({ cpuW4 with
          vReg := upd cpuW4.vReg 3 k
          lastKey := none
          hasDrawn := false
          pc := u16 (cpuW4.pc + 2) }, some screenW4)) :=
  keyWaitStateMachine cpuW4 screenW4 3 0 (by norm_num) (by decide) rfl rfl

/-- C5 (counterexample): the code decrements once 16 ms have elapsed
(`Duration::from_millis(16)`), not once 1/60 s has elapsed.  At exactly
16000000 ns the timers are decremented although 16000000 ns is strictly
less than 1/60 s (16000000 * 60 < 1000000000 * 1), so 'every tick call
before 1/60 second has elapsed is a no-op' fails. -/
theorem timerQuantumClaimFalse :
    (updateTimers cpuC5 16000000).delayTimer = 0 ∧
    (updateTimers cpuC5 16000000).soundTimer = 0 ∧
    cpuC5.delayTimer = 1 ∧ cpuC5.soundTimer = 1 ∧
    16000000 * 60 < 1000000000 :=
  ⟨rfl, rfl, rfl, rfl, by norm_num⟩

/-- C5 (amended): a timer tick decrements `delay_timer` and `sound_timer`
each by 1 when positive (saturating at 0) and resets the elapsed-time
reference, if and only if at least 16 milliseconds (the fixed quantum of
the code, approximately but not exactly 1/60 s) have elapsed since the
previous decrement; any tick call before 16 ms have elapsed is a no-op. -/
theorem timerTickQuantum (c : Cpu) (now : Nat) :
    (16000000 ≤ now - c.time →
      updateTimers c now = { c with
        delayTimer :=
          (if 0 < c.delayTimer then c.delayTimer - 1 else c.delayTimer)
        soundTimer :=
          (if 0 < c.soundTimer then c.soundTimer - 1 else c.soundTimer)
        time := now }) ∧
    (now - c.time < 16000000 → updateTimers c now = c) := by
  constructor
  · intro h
    unfold updateTimers
    rw [if_pos h]
  · intro h
    unfold updateTimers
    rw [if_neg (by omega)]

/-- C5 (witness): the amended theorem applied at exactly one elapsed
quantum, decrementing both timers of `cpuC5` from 1 to 0. -/
theorem timerTickQuantumWitness :
    updateTimers cpuC5 16000000 = { cpuC5 with
      delayTimer :=
        (if 0 < cpuC5.delayTimer then cpuC5.delayTimer - 1 else cpuC5.delayTimer)
      soundTimer :=
        (if 0 < cpuC5.soundTimer then cpuC5.soundTimer - 1 else cpuC5.soundTimer)
      time := 16000000 } :=
  (timerTickQuantum cpuC5 16000000).1 (by decide)

lemma storeLoop_misc (c : Cpu) (x i : Nat) :
    (storeLoop c x i).pc = c.pc ∧ (storeLoop c x i).sp = c.sp ∧
    (storeLoop c x i).vReg = c.vReg ∧ (storeLoop c x i).hasDrawn = c.hasDrawn := by
  induction c, x, i using storeLoop.induct with
  | case1 c x i h ih =>
    rw [storeLoop, if_pos h]
    simpa using ih
  | case2 c x i h =>
    rw [storeLoop, if_neg h]
    exact ⟨rfl, rfl, rfl, rfl⟩

lemma storeLoop_index (c : Cpu) (x i : Nat) (hI : c.index < 65536)
    (hi : i ≤ x + 1) :
    (storeLoop c x i).index = u16 (c.index + (x + 1 - i)) := by
  induction c, x, i using storeLoop.induct with
  | case1 c x i h ih =>
    rw [storeLoop, if_pos h]
    have h2 : u16 (c.index + 1) < 65536 := by unfold u16; omega
    rw [ih h2 (by omega)]
    dsimp only
    unfold u16
    omega
  | case2 c x i h =>
    rw [storeLoop, if_neg h]
    unfold u16
    omega

lemma storeLoop_ram_preserve (c : Cpu) (x i : Nat) (hI : c.index < 65536) :
    ∀ a, (∀ m, m < x + 1 - i → u16 (c.index + m) ≠ a) →
      (storeLoop c x i).ram a = c.ram a := by
  induction c, x, i using storeLoop.induct with
  | case1 c x i h ih =>
    intro a ha
    rw [storeLoop, if_pos h]
    have h2 : u16 (c.index + 1) < 65536 := by unfold u16; omega
    rw [ih h2 a (fun m hm => by
      have hm2 := ha (1 + m) (by omega)
      intro hcon
      apply hm2
      rw [← hcon]
      dsimp only
      unfold u16
      omega)]
    have h0 : u16 (c.index + 0) = c.index := by unfold u16; omega
    dsimp only
    exact upd_ne _ _ _ _ (fun hcon => ha 0 (by omega) (by rw [h0, hcon]))
  | case2 c x i h =>
    intro a ha
    rw [storeLoop, if_neg h]

lemma storeLoop_ram_at (c : Cpu) (x i : Nat) :
    x < 16 → c.index < 65536 →
    ∀ k, i ≤ k → k ≤ x →
      (storeLoop c x i).ram (u16 (c.index + (k - i))) = c.vReg k := by
  induction c, x, i using storeLoop.induct with
  | case1 c x i h ih =>
    intro hx hI k hik hkx
    rw [storeLoop, if_pos h]
    have h2 : u16 (c.index + 1) < 65536 := by unfold u16; omega
    rcases Nat.eq_or_lt_of_le hik with heq | hlt
    · have h0 : u16 (c.index + (k - i)) = c.index := by unfold u16; omega
      rw [h0]
      rw [storeLoop_ram_preserve _ _ _ h2 c.index (fun m hm => by
        show u16 (u16 (c.index + 1) + m) ≠ c.index
        unfold u16
        omega)]
      show upd c.ram c.index (c.vReg i) c.index = c.vReg k
      rw [upd_self, heq]
    · have haddr : u16 (u16 (c.index + 1) + (k - (i + 1))) =
          u16 (c.index + (k - i)) := by
        unfold u16; omega
      rw [← haddr]
      exact ih hx h2 k hlt hkx
  | case2 c x i h =>
    intro hx hI k hik hkx
    omega

lemma loadLoop_misc (c : Cpu) (x i : Nat) :
    (loadLoop c x i).pc = c.pc ∧ (loadLoop c x i).sp = c.sp ∧
    (loadLoop c x i).ram = c.ram ∧ (loadLoop c x i).hasDrawn = c.hasDrawn := by
  induction c, x, i using loadLoop.induct with
  | case1 c x i h ih =>
    rw [loadLoop, if_pos h]
    simpa using ih
  | case2 c x i h =>
    rw [loadLoop, if_neg h]
    exact ⟨rfl, rfl, rfl, rfl⟩

lemma loadLoop_index (c : Cpu) (x i : Nat) (hI : c.index < 65536)
    (hi : i ≤ x + 1) :
    (loadLoop c x i).index = u16 (c.index + (x + 1 - i)) := by
  induction c, x, i using loadLoop.induct with
  | case1 c x i h ih =>
    rw [loadLoop, if_pos h]
    have h2 : u16 (c.index + 1) < 65536 := by unfold u16; omega
    rw [ih h2 (by omega)]
    dsimp only
    unfold u16
    omega
  | case2 c x i h =>
    rw [loadLoop, if_neg h]
    unfold u16
    omega

lemma loadLoop_vReg_preserve (c : Cpu) (x i : Nat) :
    ∀ r, r < i → (loadLoop c x i).vReg r = c.vReg r := by
  induction c, x, i using loadLoop.induct with
  | case1 c x i h ih =>
    intro r hr
    rw [loadLoop, if_pos h]
    rw [ih r (by omega)]
    exact upd_ne _ _ _ _ (by omega)
  | case2 c x i h =>
    intro r hr
    rw [loadLoop, if_neg h]

lemma loadLoop_vReg_at (c : Cpu) (x i : Nat) (hI : c.index < 65536) :
    ∀ k, i ≤ k → k ≤ x →
      (loadLoop c x i).vReg k = c.ram (u16 (c.index + (k - i))) := by
  induction c, x, i using loadLoop.induct with
  | case1 c x i h ih =>
    intro k hik hkx
    rw [loadLoop, if_pos h]
    have h2 : u16 (c.index + 1) < 65536 := by unfold u16; omega
    rcases Nat.eq_or_lt_of_le hik with heq | hlt
    · have h0 : u16 (c.index + (k - i)) = c.index := by unfold u16; omega
      rw [h0]
      rw [loadLoop_vReg_preserve _ _ _ k (by omega)]
      show upd c.vReg i (c.ram c.index) k = c.ram c.index
      rw [← heq, upd_self]
    · have haddr : u16 (u16 (c.index + 1) + (k - (i + 1))) =
          u16 (c.index + (k - i)) := by
        unfold u16; omega
      rw [← haddr]
      show (loadLoop
        { c with
          vReg := upd c.vReg i (c.ram c.index)
          index := u16 (c.index + 1) } x (i + 1)).vReg k =
        ({ c with
          vReg := upd c.vReg i (c.ram c.index)
          index := u16 (c.index + 1) } : Cpu).ram
          (u16 (u16 (c.index + 1) + (k - (i + 1))))
      exact ih h2 k hlt hkx
  | case2 c x i h =>
    intro k hik hkx
    omega

/-- C7: `FX55` writes registers 0..x to memory at `index .. index + x` and
`FX65` loads them back, and in both cases `index` ends at `index + x + 1`
(16-bit): the index register is left mutated. -/
theorem blockStoreLoad (c : Cpu) (x rand : Nat)
    (hx : x < 16) (hI : c.index < 65536)
    (hb0 : c.ram c.pc = 0xF0 + x) :
    (c.ram (fetchAddr2 c) = 0x55 →
      ∃ c', step c none rand = some (c', none) ∧
        c'.index = u16 (c.index + x + 1) ∧
        (∀ k, k ≤ x → c'.ram (u16 (c.index + k)) = c.vReg k) ∧
        c'.vReg = c.vReg) ∧
    (c.ram (fetchAddr2 c) = 0x65 →
      ∃ c', step c none rand = some (c', none) ∧
        c'.index = u16 (c.index + x + 1) ∧
        (∀ k, k ≤ x → c'.vReg k = c.ram (u16 (c.index + k))) ∧
        c'.ram = c.ram) := by
  constructor
  · intro hb1
    have hop : fetchOpcode c = (0xF0 + x) * 256 + 0x55 := by
      unfold fetchOpcode; rw [hb0, hb1]
    have h1 : fetchOpcode c / 4096 = 15 := by rw [hop]; omega
    have h2 : fetchOpcode c % 256 = 0x55 := by rw [hop]; omega
    have h3 : fetchOpcode c / 256 % 16 = x := by rw [hop]; omega
    have hstep : step c none rand =
        some (storeLoop { c with hasDrawn := false, pc := u16 (c.pc + 2) } x 0,
          none) := by
      simp [step, exec, execF, h1, h2, h3]
    refine ⟨_, hstep, ?_, ?_, ?_⟩
    · rw [storeLoop_index]
      · dsimp only
        unfold u16
        omega
      · exact hI
      · omega
    · intro k hk
      exact storeLoop_ram_at
        { c with hasDrawn := false, pc := u16 (c.pc + 2) } x 0 hx hI k
        (by omega) hk
    · exact (storeLoop_misc _ _ _).2.2.1
  · intro hb1
    have hop : fetchOpcode c = (0xF0 + x) * 256 + 0x65 := by
      unfold fetchOpcode; rw [hb0, hb1]
    have h1 : fetchOpcode c / 4096 = 15 := by rw [hop]; omega
    have h2 : fetchOpcode c % 256 = 0x65 := by rw [hop]; omega
    have h3 : fetchOpcode c / 256 % 16 = x := by rw [hop]; omega
    have hstep : step c none rand =
        some (loadLoop { c with hasDrawn := false, pc := u16 (c.pc + 2) } x 0,
          none) := by
      simp [step, exec, execF, h1, h2, h3]
    refine ⟨_, hstep, ?_, ?_, ?_⟩
    · rw [loadLoop_index]
      · dsimp only
        unfold u16
        omega
      · exact hI
      · omega
    · intro k hk
      exact loadLoop_vReg_at
        { c with hasDrawn := false, pc := u16 (c.pc + 2) } x 0 hI k
        (by omega) hk
    · exact (loadLoop_misc _ _ _).2.2.1

/-- C7 (witness): the block store/load theorem applied to opcode `F155`
with `index = 0x300`. -/
theorem blockStoreLoadWitness :
    (cpuW7.ram (fetchAddr2 cpuW7) = 0x55 →
      ∃ c', step cpuW7 none 0 = some (c', none) ∧
        c'.index = u16 (cpuW7.index + 1 + 1) ∧
        (∀ k, k ≤ 1 → c'.ram (u16 (cpuW7.index + k)) = cpuW7.vReg k) ∧
        c'.vReg = cpuW7.vReg) ∧
    (cpuW7.ram (fetchAddr2 cpuW7) = 0x65 →
      ∃ c', step cpuW7 none 0 = some (c', none) ∧
        c'.index = u16 (cpuW7.index + 1 + 1) ∧
        (∀ k, k ≤ 1 → c'.vReg k = cpuW7.ram (u16 (cpuW7.index + k))) ∧
        c'.ram = cpuW7.ram) :=
  blockStoreLoad cpuW7 1 0 (by norm_num) (by norm_num [cpuW7, initCpu]) rfl

lemma exec_unknown (c : Cpu) (op : Nat) (s : Screen) (rand : Nat)
    (h : unknownOpcode op) :
    exec c op (some s) rand = some (c, some s) := by
  rcases h with ⟨h1, h2, h3⟩ |
    ⟨h1, h2, h3, h4, h5, h6, h7, h8, h9, h10⟩ |
    ⟨h1, h2, h3⟩ |
    ⟨h1, h2, h3, h4, h5, h6, h7, h8, h9, h10⟩ | h1
  · simp [exec, h1, h2, h3]
  · simp [exec, execALU, h1, h2, h3, h4, h5, h6, h7, h8, h9, h10]
  · simp [exec, execKey, h1, h2, h3]
  · simp [exec, execF, h1, h2, h3, h4, h5, h6, h7, h8, h9, h10]
  · have e0 : op / 4096 ≠ 0 := by omega
    have e1 : op / 4096 ≠ 1 := by omega
    have e2 : op / 4096 ≠ 2 := by omega
    have e3 : op / 4096 ≠ 3 := by omega
    have e4 : op / 4096 ≠ 4 := by omega
    have e5 : op / 4096 ≠ 5 := by omega
    have e6 : op / 4096 ≠ 6 := by omega
    have e7 : op / 4096 ≠ 7 := by omega
    have e8 : op / 4096 ≠ 8 := by omega
    have e9 : op / 4096 ≠ 9 := by omega
    have e10 : op / 4096 ≠ 10 := by omega
    have e11 : op / 4096 ≠ 11 := by omega
    have e12 : op / 4096 ≠ 12 := by omega
    have e13 : op / 4096 ≠ 13 := by omega
    have e14 : op / 4096 ≠ 14 := by omega
    have e15 : op / 4096 ≠ 15 := by omega
    simp [exec, e0, e1, e2, e3, e4, e5, e6, e7, e8, e9,
      e10, e11, e12, e13, e14, e15]

/-- C8: when the fetched opcode matches no implemented instruction
pattern, `step` changes nothing except advancing the program counter by 2
(from the fetch) and resetting the per-step dirty flag; execution
continues normally (the `warn!` diagnostic is outside the machine state
and is not modelled). -/
theorem unknownOpcodeNoStateChange (c : Cpu) (s : Screen) (rand : Nat)
    (h : unknownOpcode (fetchOpcode c)) :
    step c (some s) rand =
      some ({ c with hasDrawn := false, pc := u16 (c.pc + 2) }, some s) := by
  unfold step
  exact exec_unknown _ _ s rand h

/-- C8 (witness): stepping the unimplemented opcode `8008` only advances
the program counter and resets the dirty flag. -/
theorem unknownOpcodeNoStateChangeWitness :
    step cpuW8 (some screenW4) 0 =
      some ({ cpuW8 with hasDrawn := false, pc := u16 (cpuW8.pc + 2) },
        some screenW4) :=
  unknownOpcodeNoStateChange cpuW8 screenW4 0
    (by unfold unknownOpcode; decide)

/-- C9 (counterexample): opcode `E000` is none of the instructions listed
by the claim (it is an unimplemented opcode), yet `step` with no Display
panics on it, because the `EXnn` family unwraps the Display before
decoding the low byte. -/
theorem headlessPanicClaimFalse :
    fetchOpcode cpuC9 = 0xE000 ∧ ¬ claimNeedsScreen 0xE000 ∧
    step cpuC9 none 0 = none := by
  refine ⟨rfl, ?_, rfl⟩
  unfold claimNeedsScreen
  decide

/-- C9 (amended): `step` with no Display panics exactly on the opcodes
whose execution path unwraps the screen: low byte `E0` in family 0 (any
`0XE0`, not only `00E0`), every `DXYN`, every `EXnn` (including
unimplemented low bytes, since the unwrap precedes the inner decode), and
`FX0A`; every other instruction executes normally without a Display. -/
lemma execF_none_iff (c : Cpu) (op : Nat) :
    (execF c op none = none) ↔ op % 256 = 0x0A := by
  unfold execF
  dsimp only
  split_ifs <;>
    first
      | (simp only [reduceCtorEq, false_iff]; omega)
      | (simp only [eq_self_iff_true, true_iff]; omega)

set_option maxHeartbeats 1600000 in
lemma exec_none_iff (c : Cpu) (op : Nat) (rand : Nat) :
    (exec c op none rand = none) ↔ needsScreen op := by
  by_cases h0 : op / 4096 = 0
  · by_cases hE0 : op % 256 = 0xE0
    · simp [exec, needsScreen, *]
    · by_cases hEE : op % 256 = 0xEE
      · simp [exec, needsScreen, *]
      · simp [exec, needsScreen, *]
  by_cases h1 : op / 4096 = 1
  · simp [exec, needsScreen, *]
  by_cases h2 : op / 4096 = 2
  · simp [exec, needsScreen, *]
  by_cases h3 : op / 4096 = 3
  · simp [exec, needsScreen, *]
  by_cases h4 : op / 4096 = 4
  · simp [exec, needsScreen, *]
  by_cases h5 : op / 4096 = 5
  · simp [exec, needsScreen, *]
  by_cases h6 : op / 4096 = 6
  · simp [exec, needsScreen, *]
  by_cases h7 : op / 4096 = 7
  · simp [exec, needsScreen, *]
  by_cases h8 : op / 4096 = 8
  · simp [exec, needsScreen, *]
  by_cases h9 : op / 4096 = 9
  · simp [exec, needsScreen, *]
  by_cases h10 : op / 4096 = 10
  · simp [exec, needsScreen, *]
  by_cases h11 : op / 4096 = 11
  · simp [exec, needsScreen, *]
  by_cases h12 : op / 4096 = 12
  · simp [exec, needsScreen, *]
  by_cases h13 : op / 4096 = 13
  · simp [exec, needsScreen, *]
  by_cases h14 : op / 4096 = 14
  · simp [exec, needsScreen, *]
  by_cases h15 : op / 4096 = 15
  · simp [exec, needsScreen, execF_none_iff, *]
  simp [exec, needsScreen, *]

theorem headlessPanicIff (c : Cpu) (rand : Nat) :
    (step c none rand = none) ↔ needsScreen (fetchOpcode c) := by
  unfold step
  exact exec_none_iff _ _ _

/-- C10: `step` indexing is not bounds-safe.  Return (`00EE`) with
`sp = 0` wraps the 16-bit stack pointer below zero (the first pop reads
address 65535, far outside the 4096-byte RAM, and `sp` ends at 65534);
jump-with-offset (`BNNN`) computes `NNN + V0` without masking to 12 bits,
here `0xFFF + 0xFF = 4350 > 4095`, so the following fetch would index out
of bounds; and fetch itself reads `pc + 1` with no bounds check, which at
`pc = 4095` is address 4096, one past the end of RAM. -/
theorem stepIndexingNotTotal :
    (fetchOpcode cpuC10ret = 0x00EE ∧ cpuC10ret.sp = 0 ∧
      ¬ ramInBounds (u16sub cpuC10ret.sp 1) ∧
      (step cpuC10ret none 0).map (fun p => p.1.sp) = some 65534) ∧
    (∃ c', step cpuC10jmp none 0 = some (c', none) ∧ c'.pc = 4350 ∧
      ¬ ramInBounds c'.pc) ∧
    (cpuC10fetch.pc = 4095 ∧ ¬ ramInBounds (fetchAddr2 cpuC10fetch) ∧
      fetchAddr2 cpuC10fetch = 4096) := by
  refine ⟨⟨rfl, rfl, ?_, rfl⟩, ⟨_, rfl, rfl, ?_⟩, rfl, ?_, rfl⟩
  · unfold ramInBounds u16sub
    decide
  · unfold ramInBounds
    decide
  · unfold ramInBounds fetchAddr2 u16
    decide

lemma drawPixel_pixels (s : Screen) (x y bit : Nat) :
    ((s.drawPixel x y bit).2).pixels =
      upd s.pixels (y * 64 + x) (s.pixels (y * 64 + x) ^^^ bit) := by
  unfold Screen.drawPixel
  dsimp only
  split <;> rfl

lemma drawPixel_fst (s : Screen) (x y bit : Nat) :
    (s.drawPixel x y bit).1 = s.pixels (y * 64 + x) := rfl

lemma drawCols_pixels :
    ∀ (s : Screen) (vf x y byte j : Nat), ∀ p,
      ((drawCols s vf x y byte j).1).pixels p =
        s.pixels p ^^^ colMask x y byte j p := by
  intro s vf x y byte j
  induction s, vf, x, y, byte, j using drawCols.induct with
  | case1 s vf x y byte j h h2 =>
    intro p
    rw [drawCols, if_pos h, if_pos h2, colMask, if_pos h, if_pos h2]
    rw [Nat.xor_zero]
  | case2 s vf x y byte j h h2 ih =>
    intro p
    simp only [dite_eq_ite] at ih
    rw [drawCols, if_pos h, if_neg h2, colMask, if_pos h, if_neg h2]
    rw [ih p, drawPixel_pixels]
    by_cases hp : p = y * 64 + (x + j)
    · rw [hp, upd_self, Nat.xor_assoc, if_pos rfl]
    · rw [upd_ne _ _ _ _ hp, if_neg hp, Nat.zero_xor]
  | case3 s vf x y byte j h =>
    intro p
    rw [drawCols, if_neg h, colMask, if_neg h]
    rw [Nat.xor_zero]

lemma colHit_stop (pix : Nat → Nat) (x y byte j : Nat)
    (h : j < 8) (h2 : 64 ≤ x + j) : colHit pix x y byte j = false := by
  rw [colHit, if_pos h, if_pos h2]

lemma colHit_rec (pix : Nat → Nat) (x y byte j : Nat)
    (h : j < 8) (h2 : ¬ 64 ≤ x + j) :
    colHit pix x y byte j =
      ((pix (y * 64 + (x + j)) == 1 && bitAt byte j == 1) ||
        colHit pix x y byte (j + 1)) := by
  rw [colHit, if_pos h, if_neg h2]

lemma colHit_end (pix : Nat → Nat) (x y byte j : Nat)
    (h : ¬ j < 8) : colHit pix x y byte j = false := by
  rw [colHit, if_neg h]

lemma colMask_stop (x y byte j p : Nat)
    (h : j < 8) (h2 : 64 ≤ x + j) : colMask x y byte j p = 0 := by
  rw [colMask, if_pos h, if_pos h2]

lemma colMask_rec (x y byte j p : Nat)
    (h : j < 8) (h2 : ¬ 64 ≤ x + j) :
    colMask x y byte j p =
      ((if p = y * 64 + (x + j) then bitAt byte j else 0) ^^^
        colMask x y byte (j + 1) p) := by
  rw [colMask, if_pos h, if_neg h2]

lemma colMask_end (x y byte j p : Nat)
    (h : ¬ j < 8) : colMask x y byte j p = 0 := by
  rw [colMask, if_neg h]

lemma countdownInduction (n : Nat) (motive : Nat → Prop)
    (step : ∀ i, i < n → motive (i + 1) → motive i)
    (base : ∀ i, ¬ i < n → motive i) : ∀ i, motive i := by
  have aux : ∀ m i, n - i ≤ m → motive i := by
    intro m
    induction m with
    | zero =>
      intro i h0
      exact base i (by omega)
    | succ m ih =>
      intro i hm
      by_cases h : i < n
      · exact step i h (ih (i + 1) (by omega))
      · exact base i h
  intro i
  exact aux n i (by omega)

lemma colHit_congr (pix : Nat → Nat) (x y byte : Nat) :
    ∀ (j : Nat) (pix' : Nat → Nat),
      (∀ j', j ≤ j' → x + j' < 64 →
        pix' (y * 64 + (x + j')) = pix (y * 64 + (x + j'))) →
      colHit pix' x y byte j = colHit pix x y byte j := by
  refine countdownInduction 8 _ ?_ ?_
  · intro j h ih pix' hp
    by_cases h2 : 64 ≤ x + j
    · rw [colHit_stop _ _ _ _ _ h h2, colHit_stop _ _ _ _ _ h h2]
    · rw [colHit_rec _ _ _ _ _ h h2, colHit_rec _ _ _ _ _ h h2]
      rw [hp j (Nat.le_refl j) (by omega)]
      rw [ih pix' (fun j' hj hx => hp j' (by omega) hx)]
  · intro j h pix' hp
    rw [colHit_end _ _ _ _ _ h, colHit_end _ _ _ _ _ h]

lemma drawCols_snd :
    ∀ (s : Screen) (vf x y byte j : Nat),
      (drawCols s vf x y byte j).2 =
        if colHit s.pixels x y byte j then 1 else vf := by
  intro s vf x y byte j
  induction s, vf, x, y, byte, j using drawCols.induct with
  | case1 s vf x y byte j h h2 =>
    rw [drawCols, if_pos h, if_pos h2, colHit_stop _ _ _ _ _ h h2]
    simp
  | case2 s vf x y byte j h h2 ih =>
    simp only [dite_eq_ite] at ih
    rw [drawCols, if_pos h, if_neg h2]
    rw [ih]
    have hcongr :
        colHit ((s.drawPixel (x + j) y (bitAt byte j)).2).pixels
          x y byte (j + 1) = colHit s.pixels x y byte (j + 1) :=
      colHit_congr s.pixels x y byte (j + 1) _
        (fun j' hj hx => by
          rw [drawPixel_pixels]
          exact upd_ne _ _ _ _ (by omega))
    rw [hcongr, drawPixel_fst]
    rw [colHit_rec _ _ _ _ _ h h2]
    by_cases hb : colHit s.pixels x y byte (j + 1) = true <;>
      by_cases hn : s.pixels (y * 64 + (x + j)) = 1 ∧ bitAt byte j = 1 <;>
      simp [hb, hn]
  | case3 s vf x y byte j h =>
    rw [drawCols, if_neg h, colHit_end _ _ _ _ _ h]
    simp

lemma colMask_zero (x y byte : Nat) (p : Nat) :
    ∀ j, (∀ j', j ≤ j' → j' < 8 → x + j' < 64 → p ≠ y * 64 + (x + j')) →
      colMask x y byte j p = 0 := by
  refine countdownInduction 8 _ ?_ ?_
  · intro j h ih hp
    by_cases h2 : 64 ≤ x + j
    · exact colMask_stop _ _ _ _ _ h h2
    · rw [colMask_rec _ _ _ _ _ h h2]
      rw [if_neg (hp j (Nat.le_refl j) h (by omega))]
      rw [ih (fun j' hj h8 hx => hp j' (by omega) h8 hx), Nat.xor_zero]
  · intro j h hp
    exact colMask_end _ _ _ _ _ h

lemma colMask_at (x y byte : Nat) (j : Nat) (h8 : j < 8) (h64 : x + j < 64) :
    ∀ j0, j0 ≤ j →
      colMask x y byte j0 (y * 64 + (x + j)) = bitAt byte j := by
  refine countdownInduction 8 _ ?_ ?_
  · intro j0 h ih hj0
    by_cases h2 : 64 ≤ x + j0
    · omega
    · rw [colMask_rec _ _ _ _ _ h h2]
      rcases Nat.eq_or_lt_of_le hj0 with heq | hlt
      · rw [heq, if_pos rfl]
        rw [colMask_zero x y byte _ (j + 1)
          (fun j' hj' hj8 hx => by omega), Nat.xor_zero]
      · rw [if_neg (by omega), ih hlt, Nat.zero_xor]
  · intro j0 h hj0
    omega

lemma colHit_iff (pix : Nat → Nat) (x y byte : Nat) :
    ∀ j, colHit pix x y byte j = true ↔
      ∃ j', j ≤ j' ∧ j' < 8 ∧ x + j' < 64 ∧
        pix (y * 64 + (x + j')) = 1 ∧ bitAt byte j' = 1 := by
  refine countdownInduction 8 _ ?_ ?_
  · intro j h ih
    by_cases h2 : 64 ≤ x + j
    · rw [colHit_stop _ _ _ _ _ h h2]
      simp only [Bool.false_eq_true, false_iff]
      rintro ⟨j', hj1, hj2, hj3, hj4, hj5⟩
      omega
    · rw [colHit_rec _ _ _ _ _ h h2]
      simp only [Bool.or_eq_true, Bool.and_eq_true, beq_iff_eq]
      rw [ih]
      constructor
      · rintro (⟨hp, hb⟩ | ⟨j', hj1, hj2, hj3, hj4, hj5⟩)
        · exact ⟨j, Nat.le_refl j, h, by omega, hp, hb⟩
        · exact ⟨j', by omega, hj2, hj3, hj4, hj5⟩
      · rintro ⟨j', hj1, hj2, hj3, hj4, hj5⟩
        rcases Nat.eq_or_lt_of_le hj1 with heq | hlt
        · exact Or.inl ⟨heq ▸ hj4, heq ▸ hj5⟩
        · exact Or.inr ⟨j', hlt, hj2, hj3, hj4, hj5⟩
  · intro j h
    rw [colHit_end _ _ _ _ _ h]
    simp only [Bool.false_eq_true, false_iff]
    rintro ⟨j', hj1, hj2, hj3, hj4, hj5⟩
    omega

lemma rowMask_clip (ram : Nat → Nat) (index x y n i p : Nat)
    (h : i < n) (h2 : 32 ≤ y + i) : rowMask ram index x y n i p = 0 := by
  rw [rowMask, if_pos h, if_pos h2]

lemma rowMask_rec (ram : Nat → Nat) (index x y n i p : Nat)
    (h : i < n) (h2 : ¬ 32 ≤ y + i) :
    rowMask ram index x y n i p =
      (colMask x (y + i) (ram (u16 (index + i))) 0 p ^^^
        rowMask ram index x y n (i + 1) p) := by
  rw [rowMask, if_pos h, if_neg h2]

lemma rowMask_end (ram : Nat → Nat) (index x y n i p : Nat)
    (h : ¬ i < n) : rowMask ram index x y n i p = 0 := by
  rw [rowMask, if_neg h]

lemma rowHit_clip (pix ram : Nat → Nat) (index x y n i : Nat)
    (h : i < n) (h2 : 32 ≤ y + i) : rowHit pix ram index x y n i = false := by
  rw [rowHit, if_pos h, if_pos h2]

lemma rowHit_rec (pix ram : Nat → Nat) (index x y n i : Nat)
    (h : i < n) (h2 : ¬ 32 ≤ y + i) :
    rowHit pix ram index x y n i =
      (colHit pix x (y + i) (ram (u16 (index + i))) 0 ||
        rowHit pix ram index x y n (i + 1)) := by
  rw [rowHit, if_pos h, if_neg h2]

lemma rowHit_end (pix ram : Nat → Nat) (index x y n i : Nat)
    (h : ¬ i < n) : rowHit pix ram index x y n i = false := by
  rw [rowHit, if_neg h]

lemma drawRows_pixels :
    ∀ (s : Screen) (vf : Nat) (ram : Nat → Nat) (index x y n i : Nat),
      ∀ p, ((drawRows s vf ram index x y n i).1).pixels p =
        s.pixels p ^^^ rowMask ram index x y n i p := by
  intro s vf ram index x y n i
  induction s, vf, ram, index, x, y, n, i using drawRows.induct with
  | case1 s vf ram index x y n i h h2 =>
    intro p
    rw [drawRows, if_pos h, if_pos h2,
      rowMask_clip _ _ _ _ _ _ _ h h2, Nat.xor_zero]
  | case2 s vf ram index x y n i h h2 ih =>
    intro p
    rw [drawRows, if_pos h, if_neg h2]
    rw [ih p, drawCols_pixels]
    rw [rowMask_rec _ _ _ _ _ _ _ h h2, Nat.xor_assoc]
  | case3 s vf ram index x y n i h =>
    intro p
    rw [drawRows, if_neg h, rowMask_end _ _ _ _ _ _ _ h, Nat.xor_zero]

lemma rowHit_congr (pix ram : Nat → Nat) (index x y n : Nat) :
    ∀ i (pix' : Nat → Nat),
      (∀ i' j', i ≤ i' → i' < n → y + i' < 32 → x + j' < 64 →
        pix' ((y + i') * 64 + (x + j')) = pix ((y + i') * 64 + (x + j'))) →
      rowHit pix' ram index x y n i = rowHit pix ram index x y n i := by
  refine countdownInduction n _ ?_ ?_
  · intro i h ih pix' hp
    by_cases h2 : 32 ≤ y + i
    · rw [rowHit_clip _ _ _ _ _ _ _ h h2, rowHit_clip _ _ _ _ _ _ _ h h2]
    · rw [rowHit_rec _ _ _ _ _ _ _ h h2, rowHit_rec _ _ _ _ _ _ _ h h2]
      rw [colHit_congr pix x (y + i) (ram (u16 (index + i))) 0 pix'
        (fun j' hj hx => hp i j' (Nat.le_refl i) h (by omega) hx)]
      rw [ih pix' (fun i' j' hi hn h32 hx => hp i' j' (by omega) hn h32 hx)]
  · intro i h pix' hp
    rw [rowHit_end _ _ _ _ _ _ _ h, rowHit_end _ _ _ _ _ _ _ h]

lemma drawRows_snd :
    ∀ (s : Screen) (vf : Nat) (ram : Nat → Nat) (index x y n i : Nat),
      (drawRows s vf ram index x y n i).2 =
        if rowHit s.pixels ram index x y n i then 1 else vf := by
  intro s vf ram index x y n i
  induction s, vf, ram, index, x, y, n, i using drawRows.induct with
  | case1 s vf ram index x y n i h h2 =>
    rw [drawRows, if_pos h, if_pos h2, rowHit_clip _ _ _ _ _ _ _ h h2]
    simp
  | case2 s vf ram index x y n i h h2 ih =>
    rw [drawRows, if_pos h, if_neg h2]
    rw [ih]
    have hcongr :
        rowHit ((drawCols s vf x (y + i) (ram (u16 (index + i))) 0).1).pixels
          ram index x y n (i + 1) =
        rowHit s.pixels ram index x y n (i + 1) :=
      rowHit_congr s.pixels ram index x y n (i + 1) _
        (fun i' j' hi hn h32 hx => by
          rw [drawCols_pixels,
            colMask_zero x (y + i) (ram (u16 (index + i)))
              ((y + i') * 64 + (x + j')) 0
              (fun j'' hj0 hj8 hx' => by omega),
            Nat.xor_zero])
    rw [hcongr, drawCols_snd]
    rw [rowHit_rec _ _ _ _ _ _ _ h h2]
    by_cases hb : rowHit s.pixels ram index x y n (i + 1) = true <;>
      by_cases hc : colHit s.pixels x (y + i) (ram (u16 (index + i))) 0 = true <;>
      simp [hb, hc]
  | case3 s vf ram index x y n i h =>
    rw [drawRows, if_neg h, rowHit_end _ _ _ _ _ _ _ h]
    simp

lemma rowMask_zero (ram : Nat → Nat) (index x y n : Nat) (p : Nat) :
    ∀ i, (∀ i' j', i ≤ i' → i' < n → y + i' < 32 → j' < 8 → x + j' < 64 →
        p ≠ (y + i') * 64 + (x + j')) →
      rowMask ram index x y n i p = 0 := by
  refine countdownInduction n _ ?_ ?_
  · intro i h ih hp
    by_cases h2 : 32 ≤ y + i
    · exact rowMask_clip _ _ _ _ _ _ _ h h2
    · rw [rowMask_rec _ _ _ _ _ _ _ h h2]
      rw [colMask_zero x (y + i) (ram (u16 (index + i))) p 0
        (fun j'' hj0 hj8 hx' =>
          hp i j'' (Nat.le_refl i) h (by omega) hj8 hx')]
      rw [ih (fun i' j' hi hn h32 hj8 hx =>
        hp i' j' (by omega) hn h32 hj8 hx), Nat.xor_zero]
  · intro i h hp
    exact rowMask_end _ _ _ _ _ _ _ h

lemma rowMask_at (ram : Nat → Nat) (index x y n : Nat) (i j : Nat)
    (hin : i < n) (h32 : y + i < 32) (hj8 : j < 8) (hx : x + j < 64) :
    ∀ i0, i0 ≤ i →
      rowMask ram index x y n i0 ((y + i) * 64 + (x + j)) =
        bitAt (ram (u16 (index + i))) j := by
  refine countdownInduction n _ ?_ ?_
  · intro i0 h ih hi0
    have h2 : ¬ 32 ≤ y + i0 := by omega
    rw [rowMask_rec _ _ _ _ _ _ _ h h2]
    rcases Nat.eq_or_lt_of_le hi0 with heq | hlt
    · rw [heq]
      rw [colMask_at x (y + i) (ram (u16 (index + i))) j hj8 hx 0 (Nat.zero_le j)]
      rw [rowMask_zero ram index x y n _ (i + 1)
        (fun i' j' hi hn h32' hj8' hx' => by omega), Nat.xor_zero]
    · rw [colMask_zero x (y + i0) (ram (u16 (index + i0)))
        ((y + i) * 64 + (x + j)) 0
        (fun j'' hj0 hj8' hx' => by omega)]
      rw [ih hlt, Nat.zero_xor]
  · intro i0 h hi0
    omega

lemma rowHit_iff (pix ram : Nat → Nat) (index x y n : Nat) :
    ∀ i, rowHit pix ram index x y n i = true ↔
      ∃ i' j', i ≤ i' ∧ i' < n ∧ y + i' < 32 ∧ j' < 8 ∧ x + j' < 64 ∧
        pix ((y + i') * 64 + (x + j')) = 1 ∧
        bitAt (ram (u16 (index + i'))) j' = 1 := by
  refine countdownInduction n _ ?_ ?_
  · intro i h ih
    by_cases h2 : 32 ≤ y + i
    · rw [rowHit_clip _ _ _ _ _ _ _ h h2]
      simp only [Bool.false_eq_true, false_iff]
      rintro ⟨i', j', h1, h3, h4, h5, h6, h7, h8⟩
      omega
    · rw [rowHit_rec _ _ _ _ _ _ _ h h2]
      simp only [Bool.or_eq_true]
      rw [ih, colHit_iff]
      constructor
      · rintro (⟨j', hj0, hj8, hx, hp, hb⟩ | ⟨i', j', h1, h3, h4, h5, h6, h7, h8⟩)
        · exact ⟨i, j', Nat.le_refl i, h, by omega, hj8, by omega, hp, hb⟩
        · exact ⟨i', j', by omega, h3, h4, h5, h6, h7, h8⟩
      · rintro ⟨i', j', h1, h3, h4, h5, h6, h7, h8⟩
        rcases Nat.eq_or_lt_of_le h1 with heq | hlt
        · exact Or.inl ⟨j', Nat.zero_le j', h5, h6, heq.symm ▸ h7, heq.symm ▸ h8⟩
        · exact Or.inr ⟨i', j', hlt, h3, h4, h5, h6, h7, h8⟩
  · intro i h
    rw [rowHit_end _ _ _ _ _ _ _ h]
    simp only [Bool.false_eq_true, false_iff]
    rintro ⟨i', j', h1, h3, h4, h5, h6, h7, h8⟩
    omega

/-- C6: executing the same `DXYN` draw twice in a row (here with X = 0,
Y = 1, so position `(V0 % 64, V1 % 32)`) on an initially blank screen
leaves every pixel at zero (double-XOR identity), and the second draw's
collision flag is 1 exactly when the sprite has a set bit inside the
non-clipped region, else 0. -/
theorem doubleDrawRestoresScreen (c : Cpu) (s : Screen) (n rand1 rand2 : Nat)
    (hn : n < 16)
    (hpc : c.pc + 3 < 65536)
    (hs : ∀ p, s.pixels p = 0)
    (hb0 : c.ram c.pc = 0xD0)
    (hb1 : c.ram (u16 (c.pc + 1)) = 0x10 + n)
    (hb2 : c.ram (u16 (c.pc + 2)) = 0xD0)
    (hb3 : c.ram (u16 (c.pc + 3)) = 0x10 + n) :
    ∃ c1 s1 c2 s2,
      step c (some s) rand1 = some (c1, some s1) ∧
      step c1 (some s1) rand2 = some (c2, some s2) ∧
      (∀ p, s2.pixels p = 0) ∧
      (c2.vReg 15 = 0 ∨ c2.vReg 15 = 1) ∧
      (c2.vReg 15 = 1 ↔
        ∃ i j, i < n ∧ c.vReg 1 % 32 + i < 32 ∧ j < 8 ∧
          c.vReg 0 % 64 + j < 64 ∧
          bitAt (c.ram (u16 (c.index + i))) j = 1) := by
  have hop : fetchOpcode c = 0xD0 * 256 + (0x10 + n) := by
    unfold fetchOpcode fetchAddr2
    rw [hb0, hb1]
  have h1 : fetchOpcode c / 4096 = 13 := by rw [hop]; omega
  have hX : fetchOpcode c / 256 % 16 = 0 := by rw [hop]; omega
  have hY : fetchOpcode c % 256 / 16 = 1 := by rw [hop]; omega
  have hN : fetchOpcode c % 16 = n := by rw [hop]; omega
  have hstep1 : step c (some s) rand1 =
      some ({ c with
        pc := u16 (c.pc + 2)
        vReg := (upd c.vReg 15
          (drawRows s 0 c.ram c.index (c.vReg 0 % 64) (c.vReg 1 % 32) n 0).2)
        hasDrawn := true },
      some (drawRows s 0 c.ram c.index (c.vReg 0 % 64) (c.vReg 1 % 32) n 0).1) := by
    simp [step, exec, execDraw, h1, hX, hY, hN]
  have hpc2 : u16 (c.pc + 2) = c.pc + 2 := by unfold u16; omega
  have hb2' : c.ram (c.pc + 2) = 0xD0 := by rw [← hpc2]; exact hb2
  have hb3' : c.ram (c.pc + 2 + 1) = 0x10 + n := by
    rw [show c.pc + 2 + 1 = c.pc + 3 from rfl, ← (show u16 (c.pc + 3) = c.pc + 3 by unfold u16; omega)]
    exact hb3
  have hfetch2 : fetchOpcode
      { c with
        pc := u16 (c.pc + 2)
        vReg := (upd c.vReg 15
          (drawRows s 0 c.ram c.index (c.vReg 0 % 64) (c.vReg 1 % 32) n 0).2)
        hasDrawn := true } = 0xD0 * 256 + (0x10 + n) := by
    unfold fetchOpcode fetchAddr2
    dsimp only
    rw [hpc2]
    rw [show u16 (c.pc + 2 + 1) = c.pc + 2 + 1 by unfold u16; omega]
    rw [hb2', hb3']
  have h1b : fetchOpcode
      { c with
        pc := u16 (c.pc + 2)
        vReg := (upd c.vReg 15
          (drawRows s 0 c.ram c.index (c.vReg 0 % 64) (c.vReg 1 % 32) n 0).2)
        hasDrawn := true } = fetchOpcode c := by
    rw [hfetch2, hop]
  have hv0 : upd c.vReg 15
      (drawRows s 0 c.ram c.index (c.vReg 0 % 64) (c.vReg 1 % 32) n 0).2 0 =
      c.vReg 0 := upd_ne _ _ _ _ (by omega)
  have hv1 : upd c.vReg 15
      (drawRows s 0 c.ram c.index (c.vReg 0 % 64) (c.vReg 1 % 32) n 0).2 1 =
      c.vReg 1 := upd_ne _ _ _ _ (by omega)
  have hstep2 : step
      { c with
        pc := u16 (c.pc + 2)
        vReg := (upd c.vReg 15
          (drawRows s 0 c.ram c.index (c.vReg 0 % 64) (c.vReg 1 % 32) n 0).2)
        hasDrawn := true } (some
          (drawRows s 0 c.ram c.index (c.vReg 0 % 64) (c.vReg 1 % 32) n 0).1)
        rand2 =
      some ({ c with
        pc := u16 (u16 (c.pc + 2) + 2)
        vReg := (upd (upd c.vReg 15
          (drawRows s 0 c.ram c.index (c.vReg 0 % 64) (c.vReg 1 % 32) n 0).2) 15
          (drawRows
            (drawRows s 0 c.ram c.index (c.vReg 0 % 64) (c.vReg 1 % 32) n 0).1
            0 c.ram c.index (c.vReg 0 % 64) (c.vReg 1 % 32) n 0).2)
        hasDrawn := true },
      some (drawRows
        (drawRows s 0 c.ram c.index (c.vReg 0 % 64) (c.vReg 1 % 32) n 0).1
        0 c.ram c.index (c.vReg 0 % 64) (c.vReg 1 % 32) n 0).1) := by
    simp [step, exec, execDraw, h1b, h1, hX, hY, hN, hv0, hv1]
  refine ⟨_, _, _, _, hstep1, hstep2, ?_, ?_, ?_⟩
  · intro p
    rw [drawRows_pixels, drawRows_pixels, hs p, Nat.zero_xor, Nat.xor_self]
  · dsimp only
    rw [upd_self, drawRows_snd]
    by_cases hb : rowHit
        (drawRows s 0 c.ram c.index (c.vReg 0 % 64) (c.vReg 1 % 32) n 0).1.pixels
        c.ram c.index (c.vReg 0 % 64) (c.vReg 1 % 32) n 0 = true <;>
      simp [hb]
  · dsimp only
    rw [upd_self, drawRows_snd]
    by_cases hb : rowHit
        (drawRows s 0 c.ram c.index (c.vReg 0 % 64) (c.vReg 1 % 32) n 0).1.pixels
        c.ram c.index (c.vReg 0 % 64) (c.vReg 1 % 32) n 0 = true
    · rw [if_pos hb]
      simp only [true_iff]
      obtain ⟨i', j', hi0, hin, h32, hj8, hx64, hpix, hbit⟩ :=
        (rowHit_iff _ _ _ _ _ _ 0).mp hb
      exact ⟨i', j', hin, h32, hj8, hx64, hbit⟩
    · rw [if_neg hb]
      constructor
      · intro h01
        omega
      · rintro ⟨i, j, hin, h32, hj8, hx64, hbit⟩
        exfalso
        apply hb
        refine (rowHit_iff _ _ _ _ _ _ 0).mpr
          ⟨i, j, Nat.zero_le i, hin, h32, hj8, hx64, ?_, hbit⟩
        rw [drawRows_pixels, hs, Nat.zero_xor]
        rw [rowMask_at c.ram c.index (c.vReg 0 % 64) (c.vReg 1 % 32) n i j
          hin h32 hj8 hx64 0 (Nat.zero_le i)]
        exact hbit

/-- C6 (witness): the double-draw theorem applied to a one-row sprite
`0x80` drawn twice at `(0, 0)` on a blank screen. -/
theorem doubleDrawRestoresScreenWitness :
    ∃ c1 s1 c2 s2,
      step cpuW6 (some screenW4) 0 = some (c1, some s1) ∧
      step c1 (some s1) 0 = some (c2, some s2) ∧
      (∀ p, s2.pixels p = 0) ∧
      (c2.vReg 15 = 0 ∨ c2.vReg 15 = 1) ∧
      (c2.vReg 15 = 1 ↔
        ∃ i j, i < 1 ∧ cpuW6.vReg 1 % 32 + i < 32 ∧ j < 8 ∧
          cpuW6.vReg 0 % 64 + j < 64 ∧
          bitAt (cpuW6.ram (u16 (cpuW6.index + i))) j = 1) :=
  doubleDrawRestoresScreen cpuW6 screenW4 1 0 0 (by norm_num)
    (by norm_num [cpuW6, initCpu]) (fun p => rfl) rfl rfl rfl rfl
